import Mathlib

/-!
Verification development for the stax stacked-branch tool.

The Rust sources are embedded shallowly:
* git's branch refs and the `refs/branch-metadata/*` namespace become
  association lists;
* the serde_json codec (an external library) is modelled at the level of
  JSON values: `to_string`/`from_str` are represented by the identity on
  the `Json` type, while the serde *derive* logic for the repository's
  structs (camelCase renaming, `skip_serializing_if` on options) is spelled
  out in `PrInfo.toJson`/`BranchMetadata.toJson` and their `fromJson`
  counterparts;
* fallible Rust functions (`anyhow::Result`) return `Except String`.

Components of the repository whose sources are not available (the Stack
model, the Git gateway, the transaction receipts) are modelled from the
specification; each such definition carries a doc comment saying so.
-/

set_option autoImplicit false

namespace Stax

/-! ### Association-list helpers (the model of a git ref store) -/

/-- Replace the binding of `k` in an association list, or append it. -/
def updateAssoc {α β : Type} [BEq α] (l : List (α × β)) (k : α) (v : β) : List (α × β) :=
  match l with
  | [] => [(k, v)]
  | (k', v') :: rest => if k' == k then (k, v) :: rest else (k', v') :: updateAssoc rest k v

/-- Remove every binding of `k` from an association list. -/
def removeAssoc {α β : Type} [BEq α] (l : List (α × β)) (k : α) : List (α × β) :=
  match l with
  | [] => []
  | (k', v') :: rest => if k' == k then removeAssoc rest k else (k', v') :: removeAssoc rest k

theorem lookup_updateAssoc_self {α β : Type} [BEq α] [LawfulBEq α]
    (l : List (α × β)) (k : α) (v : β) :
    (updateAssoc l k v).lookup k = some v := by
  induction l with
  | nil => simp [updateAssoc, List.lookup]
  | cons p rest ih =>
    obtain ⟨a, b⟩ := p
    by_cases ha : a = k
    · have hb : (a == k) = true := by simp [ha]
      simp [updateAssoc, hb, List.lookup]
    · have hb : (a == k) = false := beq_eq_false_iff_ne.mpr ha
      have hk : (k == a) = false := beq_eq_false_iff_ne.mpr (Ne.symm ha)
      simp [updateAssoc, hb, List.lookup, hk, ih]

theorem lookup_updateAssoc_ne {α β : Type} [BEq α] [LawfulBEq α]
    (l : List (α × β)) (k k' : α) (v : β) (h : k' ≠ k) :
    (updateAssoc l k v).lookup k' = l.lookup k' := by
  induction l with
  | nil =>
    have hb : (k' == k) = false := beq_eq_false_iff_ne.mpr h
    simp [updateAssoc, List.lookup, hb]
  | cons p rest ih =>
    obtain ⟨a, b⟩ := p
    by_cases ha : a = k
    · have hb : (a == k) = true := by simp [ha]
      have hk : (k' == a) = false := beq_eq_false_iff_ne.mpr (ha ▸ h)
      have hk2 : (k' == k) = false := beq_eq_false_iff_ne.mpr h
      simp [updateAssoc, hb, List.lookup, hk, hk2]
    · have hb : (a == k) = false := beq_eq_false_iff_ne.mpr ha
      cases hc : (k' == a) with
      | true => simp [updateAssoc, hb, List.lookup, hc]
      | false => simp [updateAssoc, hb, List.lookup, hc, ih]

/-! ### Branch metadata (src/src/engine/metadata.rs) -/

/-- PR information recorded in branch metadata.
From `struct PrInfo` in src/src/engine/metadata.rs: `number: u64`,
`state: String`, `is_draft: Option<bool>` (serialized camelCase, with
`is_draft` skipped when `None`). -/
structure PrInfo where
  number : Nat
  state : String
  is_draft : Option Bool
deriving Repr, DecidableEq

/-- Metadata stored for each tracked branch.
From `struct BranchMetadata` in src/src/engine/metadata.rs. -/
structure BranchMetadata where
  parent_branch_name : String
  parent_branch_revision : String
  pr_info : Option PrInfo
deriving Repr, DecidableEq

/-- `BranchMetadata::new` from src/src/engine/metadata.rs. -/
def BranchMetadata.new (parent_name parent_revision : String) : BranchMetadata :=
  ⟨parent_name, parent_revision, none⟩

/-! ### JSON values (the codomain of the serde_json codec) -/

/-- JSON values.  The external serde_json library's `to_string` and
`from_str` are modelled as the identity on this type; everything the
repository's own code contributes (field names, optional-field skipping)
is explicit in the `toJson`/`fromJson` functions below. -/
inductive Json where
  | null
  | bool (b : Bool)
  | num (n : Nat)
  | str (s : String)
  | arr (elems : List Json)
  | obj (fields : List (String × Json))
deriving Repr

/-- Key list of a JSON object (empty for non-objects). -/
def Json.keys : Json → List String
  | .obj fields => fields.map Prod.fst
  | _ => []

/-- Field lookup in a JSON object. -/
def Json.getField (j : Json) (k : String) : Option Json :=
  match j with
  | .obj fields => fields.lookup k
  | _ => none

/-- Serialization of `PrInfo` as derived by serde:
`rename_all = "camelCase"`, `is_draft` skipped when `None`. -/
def PrInfo.toJson (p : PrInfo) : Json :=
  .obj ([("number", .num p.number), ("state", .str p.state)] ++
    match p.is_draft with
    | none => []
    | some d => [("isDraft", .bool d)])

/-- Serialization of `BranchMetadata` as derived by serde:
`rename_all = "camelCase"`, `pr_info` skipped when `None`. -/
def BranchMetadata.toJson (m : BranchMetadata) : Json :=
  .obj ([("parentBranchName", .str m.parent_branch_name),
         ("parentBranchRevision", .str m.parent_branch_revision)] ++
    match m.pr_info with
    | none => []
    | some p => [("prInfo", p.toJson)])

/-- Deserialization of `PrInfo` as derived by serde: required `number`
and `state` fields, optional `isDraft` (absent or `null` ↦ `none`). -/
def PrInfo.fromJson : Json → Option PrInfo
  | .obj fields =>
    match fields.lookup "number" with
    | some (.num n) =>
      match fields.lookup "state" with
      | some (.str s) =>
        match fields.lookup "isDraft" with
        | none => some ⟨n, s, none⟩
        | some .null => some ⟨n, s, none⟩
        | some (.bool d) => some ⟨n, s, some d⟩
        | some _ => none
      | _ => none
    | _ => none
  | _ => none

/-- Deserialization of `BranchMetadata` as derived by serde: required
`parentBranchName` and `parentBranchRevision`, optional `prInfo`. -/
def BranchMetadata.fromJson : Json → Option BranchMetadata
  | .obj fields =>
    match fields.lookup "parentBranchName" with
    | some (.str pn) =>
      match fields.lookup "parentBranchRevision" with
      | some (.str pr) =>
        match fields.lookup "prInfo" with
        | none => some ⟨pn, pr, none⟩
        | some .null => some ⟨pn, pr, none⟩
        | some j =>
          match PrInfo.fromJson j with
          | some p => some ⟨pn, pr, some p⟩
          | none => none
      | _ => none
    | _ => none
  | _ => none

theorem prInfo_fromJson_toJson (p : PrInfo) : PrInfo.fromJson p.toJson = some p := by
  obtain ⟨n, s, d⟩ := p
  cases d <;> rfl

theorem branchMetadata_fromJson_toJson (m : BranchMetadata) :
    BranchMetadata.fromJson m.toJson = some m := by
  obtain ⟨pn, pr, pi⟩ := m
  cases pi with
  | none => rfl
  | some p =>
    obtain ⟨n, s, d⟩ := p
    cases d <;> rfl

/-! ### The metadata ref store (src/src/git/refs.rs) -/

/-- The ref namespace for branch metadata: constant
`METADATA_REF_PREFIX = "refs/branch-metadata/"` of src/src/git/refs.rs
(renamed here). -/
def metadataRefRoot : String := "refs/branch-metadata/"

/-- Ref name for a branch's metadata: `format!("{}{}", METADATA_REF_PREFIX, branch)`
in src/src/git/refs.rs. -/
def metadataRefName (branch : String) : String := metadataRefRoot ++ branch

/-- The metadata ref store at the JSON-value level: each metadata ref
holds the JSON blob written for that branch. -/
abbrev MetaStore := List (String × Json)

/-- `BranchMetadata::write` composed with `refs::write_metadata`
(src/src/engine/metadata.rs lines 50-53, src/src/git/refs.rs lines 24-54):
serialize with serde and point `refs/branch-metadata/<branch>` at the
resulting blob. -/
def writeMeta (store : MetaStore) (branch : String) (m : BranchMetadata) : MetaStore :=
  updateAssoc store (metadataRefName branch) m.toJson

/-- `BranchMetadata::read` composed with `refs::read_metadata`
(src/src/engine/metadata.rs lines 39-47, src/src/git/refs.rs lines 8-21):
a missing ref is `None`; an existing blob is deserialized, a serde failure
propagating as an error. -/
def readMeta (store : MetaStore) (branch : String) : Except String (Option BranchMetadata) :=
  match store.lookup (metadataRefName branch) with
  | none => .ok none
  | some j =>
    match BranchMetadata.fromJson j with
    | some m => .ok (some m)
    | none => .error "failed to deserialize branch metadata"

/-! ### needs_restack (src/src/engine/metadata.rs lines 61-65) -/

/-- Branch tips: local branch name ↦ commit object id (git `refs/heads`). -/
abbrev Tips := List (String × String)

/-- `BranchMetadata::needs_restack`: find the parent as a local branch
(error if missing, as `git2::Repository::find_branch` fails), peel to its
tip commit, and compare with the recorded parent revision. -/
def BranchMetadata.needs_restack (m : BranchMetadata) (tips : Tips) : Except String Bool :=
  match tips.lookup m.parent_branch_name with
  | none => .error "parent branch not found"
  | some tip => .ok (tip != m.parent_branch_revision)

/-! ### git invocations made by refs::write_metadata (src/src/git/refs.rs) -/

/-- A git child-process invocation (the program is always `git`). -/
structure GitInvocation where
  args : List String
deriving Repr, DecidableEq

/-- The two git commands spawned by `refs::write_metadata`
(src/src/git/refs.rs lines 30-51): `hash-object -w --stdin` with the JSON
on stdin, then `update-ref <ref> <hash>` where `hash` is the object id the
first command printed. -/
def writeMetadataCmds (branch : String) (hash : String) : List GitInvocation :=
  [⟨["hash-object", "-w", "--stdin"]⟩,
   ⟨["update-ref", metadataRefName branch, hash]⟩]

/-- The compare-and-swap shape asserted by the claim: an `update-ref`
invocation that supplies the ref's prior value as a guard
(`git update-ref <ref> <new> <old>`). -/
def suppliesPriorValue (inv : GitInvocation) : Prop :=
  ∃ r newv oldv, inv.args = ["update-ref", r, newv, oldv]

/-! ### Engine-level repository state -/

/-- Engine-level repository state: the branch checked out in the invoking
worktree, the local branch tips (`refs/heads`), and the tracked metadata.
The metadata component is the ref store of `writeMeta`/`readMeta` viewed
through the serde codec and keyed by branch name (the ref key with the
fixed `refs/branch-metadata/` root removed, which loses nothing since that
keying is injective). -/
structure GitState where
  current : String
  tips : Tips
  metas : List (String × BranchMetadata)
deriving Repr

def GitState.setTip (st : GitState) (branch tip : String) : GitState :=
  { st with tips := updateAssoc st.tips branch tip }

def GitState.setMeta (st : GitState) (branch : String) (m : BranchMetadata) : GitState :=
  { st with metas := updateAssoc st.metas branch m }

def GitState.removeTip (st : GitState) (branch : String) : GitState :=
  { st with tips := removeAssoc st.tips branch }

def GitState.removeMeta (st : GitState) (branch : String) : GitState :=
  { st with metas := removeAssoc st.metas branch }

/-- Modelled from the spec: the Git gateway's worktree-aware `checkout`
(§4.G; the GitRepo source is not under src/). Only the invoking
worktree's checked-out branch changes. -/
def GitState.checkout (st : GitState) (branch : String) : GitState :=
  { st with current := branch }

/-! ### The Stack model (spec-modelled: source not under src/) -/

/-- A node of the in-memory Stack: the recorded parent and the staleness
bit. Modelled from the spec (§3, §4.S; the Stack source is not under
src/). Fields no claim mentions (pr_info, line counts) are omitted;
children are derived below. -/
structure StackNode where
  parent : String
  needs_restack : Bool
deriving Repr, DecidableEq

/-- Modelled from the spec: the in-memory Stack — the trunk name plus a
mapping from tracked branch name to its node (§3). -/
structure Stack where
  trunk : String
  branches : List (String × StackNode)
deriving Repr, DecidableEq

/-- Modelled from the spec: the branch walk of `Stack::load` (§4.S; the
Stack source is not under src/): enumerate all branches, read each one's
metadata, skip trunk and untracked branches, compute
`needs_restack = parent_branch_revision ≠ tip(parent)`, and fail on a
metadata record whose parent branch does not exist. -/
def Stack.loadNodes (st : GitState) (trunk : String) :
    List (String × String) → Except String (List (String × StackNode))
  | [] => .ok []
  | (b, _) :: rest =>
    if b == trunk then Stack.loadNodes st trunk rest
    else
      match st.metas.lookup b with
      | none => Stack.loadNodes st trunk rest
      | some m =>
        match st.tips.lookup m.parent_branch_name with
        | none => .error "stack error: parent branch does not exist"
        | some ptip =>
          match Stack.loadNodes st trunk rest with
          | .error e => .error e
          | .ok nodes =>
            .ok ((b, ⟨m.parent_branch_name, ptip != m.parent_branch_revision⟩) :: nodes)

/-- Modelled from the spec: `Stack::load` (§4.S). -/
def Stack.load (trunk : String) (st : GitState) : Except String Stack :=
  match Stack.loadNodes st trunk st.tips with
  | .error e => .error e
  | .ok nodes => .ok ⟨trunk, nodes⟩

/-- Insertion into a lexicographically sorted list of branch names. -/
def insertSorted (s : String) : List String → List String
  | [] => [s]
  | t :: rest => if s ≤ t then s :: t :: rest else t :: insertSorted s rest

def sortStrings (l : List String) : List String := l.foldr insertSorted []

/-- Modelled from the spec: the children of a branch, derived by
inverting parents and sorted lexicographically (§3). -/
def Stack.childrenOf (stack : Stack) (b : String) : List String :=
  sortStrings ((stack.branches.filter (fun p => p.2.parent == b)).map Prod.fst)

/-- Modelled from the spec: `descendants(b)` is the pre-order traversal
of children, sorted at each level (§3). Fuel bounds the traversal; on
the cycle-free forests the loader is specified to accept, the branch
count plus one is enough to visit every descendant. -/
def Stack.descendantsAux (stack : Stack) : Nat → List String → List String
  | 0, _ => []
  | _, [] => []
  | fuel + 1, b :: queue =>
    b :: Stack.descendantsAux stack fuel (stack.childrenOf b ++ queue)

/-- Modelled from the spec: `descendants(b)` (§3, §4.S). -/
def Stack.descendants (stack : Stack) (b : String) : List String :=
  Stack.descendantsAux stack (stack.branches.length + 1) (stack.childrenOf b)

/-! ### The rebase primitive (spec-modelled: GitRepo source not under src/) -/

/-- Rebase outcomes of the Git gateway's `rebase_branch_onto` (§4.G).
`success` carries the new tip git wrote for the rebased branch. A
conflict leaves the branch ref unchanged (git is mid-rebase). -/
inductive RebaseResult where
  | success (newTip : String)
  | conflict
deriving Repr, DecidableEq

/-- The git rebase executor: given the repository state, the branch and
the parent to rebase onto, what `git rebase <parent> <branch>` does. The
outcome is determined by git itself, so the engine model takes it as a
parameter. Modelled from the spec (§4.G). -/
abbrev RebaseOracle := GitState → String → String → RebaseResult

/-! ### The upstack restack command (src/src/commands/upstack/restack.rs) -/

/-- The `RebaseResult::Success` arm of the upstack restack loop
(src/src/commands/upstack/restack.rs lines 96-106): git has moved the
branch to `newTip`; re-read the parent's tip (`repo.branch_commit`) and
write back the metadata with only `parent_branch_revision` replaced
(`BranchMetadata { parent_branch_revision: new_parent_rev, ..meta }`). -/
def applySuccess (st : GitState) (branch : String) (m : BranchMetadata) (newTip : String) :
    Except String GitState :=
  let st1 := st.setTip branch newTip
  match st1.tips.lookup m.parent_branch_name with
  | none => .error "parent branch not found"
  | some newParentRev =>
    .ok (st1.setMeta branch { m with parent_branch_revision := newParentRev })

/-- Result of the rebase loop. `rebased` logs each branch for which a
rebase was invoked. -/
inductive LoopResult where
  | completed (st : GitState) (rebased : List String)
  | suspended (branch : String) (st : GitState) (rebased : List String)
  | failed (msg : String) (st : GitState) (rebased : List String)
deriving Repr

/-- The rebase loop of `upstack restack`
(src/src/commands/upstack/restack.rs lines 73-121): for each planned
branch, reload the live stack, skip the branch when it no longer needs
restack or has no metadata, otherwise rebase it onto its recorded
parent; on success write back the metadata and continue, on conflict
stop at once with the conflicting branch. -/
def restackLoop (oracle : RebaseOracle) (trunk : String) :
    GitState → List String → List String → LoopResult
  | st, rebased, [] => .completed st rebased
  | st, rebased, b :: rest =>
    match Stack.load trunk st with
    | .error e => .failed e st rebased
    | .ok liveStack =>
      match liveStack.branches.lookup b with
      | none => restackLoop oracle trunk st rebased rest
      | some node =>
        if !node.needs_restack then restackLoop oracle trunk st rebased rest
        else
          match st.metas.lookup b with
          | none => restackLoop oracle trunk st rebased rest
          | some m =>
            match oracle st b m.parent_branch_name with
            | .success newTip =>
              match applySuccess st b m newTip with
              | .error e => .failed e st (rebased ++ [b])
              | .ok st2 => restackLoop oracle trunk st2 (rebased ++ [b]) rest
            | .conflict => .suspended b st (rebased ++ [b])

/-- Transaction receipt outcome. Modelled from the spec (§3, §4.T, §4.R;
the ops/tx and ops/receipt sources are not under src/): `begin` opens
the receipt `in_progress` with no failure context; the conflict arm
seals it `in_progress` with `phase = "rebase"` and the conflicting
branch; a clean finish seals it `ok`. -/
inductive TxOutcome where
  | ok
  | in_progress (phase : Option String) (branch : Option String)
deriving Repr, DecidableEq

/-- Result of running a command: the process exit code (a `run` that
returns `Ok(())` is exit 0, an `anyhow` error exit 1), the final
repository state, the receipt outcome (`none` when no transaction was
begun), and the branches a rebase was invoked for. -/
structure RunResult where
  exitCode : Nat
  state : GitState
  receipt : Option TxOutcome
  rebased : List String
deriving Repr

/-- The scope of `upstack restack`
(src/src/commands/upstack/restack.rs lines 16-18): the vector of the
current branch followed by `stack.descendants(current)`, retained to the
branches that differ from trunk. -/
def upstackScope (stack : Stack) (current : String) : List String :=
  (current :: stack.descendants current).filter (fun b => b != stack.trunk)

/-- `branches_needing_restack`
(src/src/commands/upstack/restack.rs lines 135-147). -/
def branchesNeedingRestack (stack : Stack) (scope : List String) : List String :=
  scope.filter (fun b => ((stack.branches.lookup b).map StackNode.needs_restack).getD false)

/-- `commands::upstack::restack::run`
(src/src/commands/upstack/restack.rs): load the stack, build the upstack
scope, return `Ok(())` early when nothing needs restack, otherwise begin
a transaction and walk the rebase loop. A conflict seals the receipt
`in_progress` (phase `rebase`, the conflicting branch) and the function
still returns `Ok(())` — exit code 0. On completion the original branch
is checked out again and the receipt is sealed `ok`. -/
def upstackRestackRun (oracle : RebaseOracle) (trunk : String) (st : GitState) : RunResult :=
  match Stack.load trunk st with
  | .error _ => ⟨1, st, none, []⟩
  | .ok stack =>
    let current := st.current
    let scope := upstackScope stack current
    if (branchesNeedingRestack stack scope).isEmpty then ⟨0, st, none, []⟩
    else
      match restackLoop oracle trunk st [] scope with
      | .completed st2 rebased => ⟨0, st2.checkout current, some .ok, rebased⟩
      | .suspended b st2 rebased =>
        ⟨0, st2, some (.in_progress (some "rebase") (some b)), rebased⟩
      | .failed _ st2 rebased => ⟨1, st2, some (.in_progress none none), rebased⟩

/-! ### branch delete (src/src/commands/branch/delete.rs) -/

/-- Result of `branch delete`; every constructor carries the repository
state so that the error path exhibits the untouched state. -/
inductive DeleteResult where
  | err (msg : String) (st : GitState)
  | cancelled (st : GitState)
  | deleted (st : GitState)
deriving Repr

/-- `commands::branch::delete::run` with an explicit target
(src/src/commands/branch/delete.rs lines 34-63): refuse to delete trunk,
then refuse to delete the currently checked-out branch; otherwise,
unless `--force`, consult the confirmation prompt (`confirm` stands for
the dialoguer answer); on confirmation delete the git branch (the
gateway's `delete_branch`, modelled as removing the branch ref — its
source is not under src/) and then the branch's metadata ref. -/
def branchDeleteRun (st : GitState) (trunk target : String) (force confirm : Bool) :
    DeleteResult :=
  if target == trunk then .err "cannot delete trunk branch" st
  else if target == st.current then .err "cannot delete current branch" st
  else if !force && !confirm then .cancelled st
  else .deleted ((st.removeTip target).removeMeta target)

/-! ### The refs layer at the byte level (src/src/git/refs.rs) -/

/-- The metadata ref store at the byte level: each metadata ref points at
a blob whose content is a byte list (the ref-to-blob indirection of git's
object store is collapsed into the association). -/
abbrev RefStore := List (String × List Nat)

/-- One step of strict UTF-8 decoding: the scalar value encoded at the
head of the byte list and the remaining bytes, or `none` for an invalid
prefix. Matches the validity rules of Rust's `std::str::from_utf8`
(continuation ranges, no overlong forms, no surrogates, max U+10FFFF). -/
def utf8Step : List Nat → Option (Nat × List Nat)
  | [] => none
  | b0 :: rest =>
    if b0 < 0x80 then some (b0, rest)
    else if 0xC2 ≤ b0 ∧ b0 ≤ 0xDF then
      match rest with
      | b1 :: rest1 =>
        if 0x80 ≤ b1 ∧ b1 ≤ 0xBF then some ((b0 - 0xC0) * 0x40 + (b1 - 0x80), rest1)
        else none
      | _ => none
    else if 0xE0 ≤ b0 ∧ b0 ≤ 0xEF then
      match rest with
      | b1 :: b2 :: rest2 =>
        let lo1 := if b0 = 0xE0 then 0xA0 else 0x80
        let hi1 := if b0 = 0xED then 0x9F else 0xBF
        if lo1 ≤ b1 ∧ b1 ≤ hi1 ∧ 0x80 ≤ b2 ∧ b2 ≤ 0xBF then
          some ((b0 - 0xE0) * 0x1000 + (b1 - 0x80) * 0x40 + (b2 - 0x80), rest2)
        else none
      | _ => none
    else if 0xF0 ≤ b0 ∧ b0 ≤ 0xF4 then
      match rest with
      | b1 :: b2 :: b3 :: rest3 =>
        let lo1 := if b0 = 0xF0 then 0x90 else 0x80
        let hi1 := if b0 = 0xF4 then 0x8F else 0xBF
        if lo1 ≤ b1 ∧ b1 ≤ hi1 ∧ 0x80 ≤ b2 ∧ b2 ≤ 0xBF ∧ 0x80 ≤ b3 ∧ b3 ≤ 0xBF then
          some ((b0 - 0xF0) * 0x40000 + (b1 - 0x80) * 0x1000 +
                  (b2 - 0x80) * 0x40 + (b3 - 0x80), rest3)
        else none
      | _ => none
    else none

/-- Fueled decoding loop; every successful `utf8Step` consumes at least
one byte, so a fuel of the byte count completes any valid input. -/
def utf8DecodeAux : Nat → List Nat → Option (List Char)
  | _, [] => some []
  | 0, _ :: _ => none
  | fuel + 1, b :: rest =>
    match utf8Step (b :: rest) with
    | none => none
    | some (cp, rem) =>
      match utf8DecodeAux fuel rem with
      | none => none
      | some cs => some (Char.ofNat cp :: cs)

/-- Strict UTF-8 decoding of a byte list: `std::str::from_utf8`. -/
def utf8Decode (bytes : List Nat) : Option String :=
  (utf8DecodeAux bytes.length bytes).map fun cs => ⟨cs⟩

/-! ### A JSON parser (the model of serde_json's from_str) -/

def isJsonWs (c : Char) : Bool :=
  c = ' ' || c = '\t' || c = '\n' || c = '\r'

def skipWs : List Char → List Char
  | [] => []
  | c :: rest => if isJsonWs c then skipWs rest else c :: rest

def hexVal (c : Char) : Option Nat :=
  if '0' ≤ c ∧ c ≤ '9' then some (c.toNat - '0'.toNat)
  else if 'a' ≤ c ∧ c ≤ 'f' then some (c.toNat - 'a'.toNat + 10)
  else if 'A' ≤ c ∧ c ≤ 'F' then some (c.toNat - 'A'.toNat + 10)
  else none

/-- The single-character escape forms of RFC 8259. -/
def escapeChar (e : Char) : Option Char :=
  if e = '"' then some '"'
  else if e = '\\' then some '\\'
  else if e = '/' then some '/'
  else if e = 'b' then some (Char.ofNat 8)
  else if e = 'f' then some (Char.ofNat 12)
  else if e = 'n' then some '\n'
  else if e = 'r' then some '\r'
  else if e = 't' then some '\t'
  else none

/-- Parse the body of a JSON string after the opening quote; returns the
characters and the input after the closing quote. `\uXXXX` decodes a
single code unit (surrogate pairs are beyond what any claim exercises). -/
def parseStringBody : Nat → List Char → Option (List Char × List Char)
  | 0, _ => none
  | _ + 1, [] => none
  | fuel + 1, c :: rest =>
    if c = '"' then some ([], rest)
    else if c = '\\' then
      match rest with
      | [] => none
      | e :: rest1 =>
        match escapeChar e with
        | some ec => (parseStringBody fuel rest1).map fun p => (ec :: p.1, p.2)
        | none =>
          if e = 'u' then
            match rest1 with
            | h1 :: h2 :: h3 :: h4 :: rest2 =>
              match hexVal h1, hexVal h2, hexVal h3, hexVal h4 with
              | some v1, some v2, some v3, some v4 =>
                (parseStringBody fuel rest2).map fun p =>
                  (Char.ofNat (((v1 * 16 + v2) * 16 + v3) * 16 + v4) :: p.1, p.2)
              | _, _, _, _ => none
            | _ => none
          else none
    else
      (parseStringBody fuel rest).map fun p => (c :: p.1, p.2)

def takeDigits : Nat → List Char → (List Nat × List Char)
  | 0, cs => ([], cs)
  | _ + 1, [] => ([], [])
  | fuel + 1, c :: rest =>
    if c.isDigit then
      let p := takeDigits fuel rest
      ((c.toNat - '0'.toNat) :: p.1, p.2)
    else ([], c :: rest)

def digitsToNat (acc : Nat) : List Nat → Nat
  | [] => acc
  | d :: ds => digitsToNat (acc * 10 + d) ds

mutual

/-- Recursive-descent JSON value parser: the model of serde_json's
grammar, with numbers restricted to unsigned integers — the only number
shape the metadata uses (a fraction, exponent or sign makes the parse
fail). The fuel bounds nesting depth, as serde_json's own recursion
limit does. -/
def parseValue : Nat → List Char → Option (Json × List Char)
  | 0, _ => none
  | fuel + 1, cs =>
    match skipWs cs with
    | [] => none
    | c :: rest =>
      if c = '"' then
        match parseStringBody (rest.length + 1) rest with
        | none => none
        | some (body, rem) => some (.str ⟨body⟩, rem)
      else if c = '\x7b' then
        match parseObjBody fuel rest with
        | none => none
        | some (fields, rem) => some (.obj fields, rem)
      else if c = '[' then
        match parseArrBody fuel rest with
        | none => none
        | some (vs, rem) => some (.arr vs, rem)
      else if c = 't' then
        match rest with
        | 'r' :: 'u' :: 'e' :: rem => some (.bool true, rem)
        | _ => none
      else if c = 'f' then
        match rest with
        | 'a' :: 'l' :: 's' :: 'e' :: rem => some (.bool false, rem)
        | _ => none
      else if c = 'n' then
        match rest with
        | 'u' :: 'l' :: 'l' :: rem => some (.null, rem)
        | _ => none
      else if c.isDigit then
        match takeDigits ((c :: rest).length) (c :: rest) with
        | (ds, rem) =>
          match rem with
          | d :: _ =>
            if d = '.' ∨ d = 'e' ∨ d = 'E' then none
            else some (.num (digitsToNat 0 ds), rem)
          | [] => some (.num (digitsToNat 0 ds), rem)
      else none

/-- Object body after the opening brace. -/
def parseObjBody : Nat → List Char → Option (List (String × Json) × List Char)
  | 0, _ => none
  | fuel + 1, cs =>
    match skipWs cs with
    | '\x7d' :: rest => some ([], rest)
    | _ => parseObjItems fuel cs

/-- One or more `"key": value` members, comma-separated, up to the
closing brace. -/
def parseObjItems : Nat → List Char → Option (List (String × Json) × List Char)
  | 0, _ => none
  | fuel + 1, cs =>
    match skipWs cs with
    | '"' :: rest =>
      match parseStringBody (rest.length + 1) rest with
      | none => none
      | some (key, rem) =>
        match skipWs rem with
        | ':' :: rem2 =>
          match parseValue fuel rem2 with
          | none => none
          | some (v, rem3) =>
            match skipWs rem3 with
            | ',' :: rem4 =>
              match parseObjItems fuel rem4 with
              | none => none
              | some (fields, rem5) => some ((⟨key⟩, v) :: fields, rem5)
            | '\x7d' :: rem4 => some ([(⟨key⟩, v)], rem4)
            | _ => none
        | _ => none
    | _ => none

/-- Array body after the opening bracket. -/
def parseArrBody : Nat → List Char → Option (List Json × List Char)
  | 0, _ => none
  | fuel + 1, cs =>
    match skipWs cs with
    | ']' :: rest => some ([], rest)
    | _ => parseArrItems fuel cs

/-- One or more values, comma-separated, up to the closing bracket. -/
def parseArrItems : Nat → List Char → Option (List Json × List Char)
  | 0, _ => none
  | fuel + 1, cs =>
    match parseValue fuel cs with
    | none => none
    | some (v, rem) =>
      match skipWs rem with
      | ',' :: rem2 =>
        match parseArrItems fuel rem2 with
        | none => none
        | some (vs, rem3) => some (v :: vs, rem3)
      | ']' :: rem2 => some ([v], rem2)
      | _ => none

end

/-- serde_json's `from_str` on a full document: one JSON value followed
only by whitespace. -/
def jsonParse (s : String) : Option Json :=
  match parseValue (2 * s.length + 2) s.data with
  | none => none
  | some (j, rem) => if skipWs rem = [] then some j else none

/-- `refs::read_metadata` (src/src/git/refs.rs lines 8-21) at the byte
level: a missing ref is `Ok(None)`; an existing blob's bytes must be
UTF-8 (`std::str::from_utf8`), a failure propagating as an error. -/
def read_metadata (store : RefStore) (branch : String) : Except String (Option String) :=
  match store.lookup (metadataRefName branch) with
  | none => .ok none
  | some bytes =>
    match utf8Decode bytes with
    | none => .error "invalid utf-8 in metadata blob"
    | some s => .ok (some s)

/-- `BranchMetadata::read` (src/src/engine/metadata.rs lines 39-47) on
top of the byte-level store: on `Some(json)`, `serde_json::from_str`
must produce a `BranchMetadata`, any parse or shape failure propagating
as an error. -/
def readMetadataFull (store : RefStore) (branch : String) :
    Except String (Option BranchMetadata) :=
  match read_metadata store branch with
  | .error e => .error e
  | .ok none => .ok none
  | .ok (some s) =>
    match jsonParse s with
    | none => .error "invalid JSON in metadata blob"
    | some j =>
      match BranchMetadata.fromJson j with
      | none => .error "metadata JSON does not deserialize"
      | some m => .ok (some m)

/-! ### Concrete states used by witnesses and counterexamples -/

/-- The JSON text of a concrete metadata blob. -/
def jsonTextC9 : String :=
  "\x7b\"parentBranchName\":\"main\",\"parentBranchRevision\":\"abc\"\x7d"

/-- The UTF-8 bytes of `jsonTextC9` (all ASCII). -/
def blobC9 : List Nat := jsonTextC9.data.map Char.toNat

/-- A byte-level ref store holding one well-formed metadata blob. -/
def storeC9 : RefStore := [(metadataRefName "A", blobC9)]

/-- A rebase executor that reports a conflict on every invocation. -/
def conflictOracle : RebaseOracle := fun _ _ _ => .conflict

/-- A one-branch repository whose branch `A` needs restack: trunk `main`
moved from `c0` to `c1` since `A` recorded it. -/
def stC3 : GitState :=
  ⟨"A", [("main", "c1"), ("A", "c0a")], [("A", ⟨"main", "c0", none⟩)]⟩

/-- The stack `Stack::load` builds from `stC3`. -/
def stackC3 : Stack := ⟨"main", [("A", ⟨"main", true⟩)]⟩

/-- A two-branch repository (`B` on `A` on `main`) in which only `A`
needs restack. -/
def stC5 : GitState :=
  ⟨"A", [("main", "c1"), ("A", "c0a"), ("B", "c0b")],
   [("A", ⟨"main", "c0", none⟩), ("B", ⟨"A", "c0a", none⟩)]⟩

end Stax

namespace Stax

/-! ### Claim C1 -/

/-- Claim C1: for metadata `m` whose recorded parent exists as a local
branch with tip `tip`, `needs_restack` returns `true` exactly when that
tip differs from the recorded `parent_branch_revision`. -/
theorem needs_restack_iff (tips : Tips) (m : BranchMetadata) (tip : String)
    (h : tips.lookup m.parent_branch_name = some tip) :
    m.needs_restack tips = .ok true ↔ tip ≠ m.parent_branch_revision := by
  simp [BranchMetadata.needs_restack, h, bne_iff_ne]

/-- Witness for C1 at a concrete repository state. -/
theorem needs_restack_iff_witness :
    (BranchMetadata.new "main" "c0").needs_restack [("main", "c1")] = .ok true ↔
      "c1" ≠ "c0" :=
  needs_restack_iff [("main", "c1")] (BranchMetadata.new "main" "c0") "c1" rfl

/-! ### Claim C2 -/

/-- Claim C2: writing metadata `m` for branch `b` and then reading `b`'s
metadata back yields `Some m`, field for field, an absent `pr_info`
staying absent. -/
theorem metadata_roundtrip (store : MetaStore) (branch : String) (m : BranchMetadata) :
    readMeta (writeMeta store branch m) branch = .ok (some m) := by
  simp [readMeta, writeMeta, lookup_updateAssoc_self, branchMetadata_fromJson_toJson]

/-! ### Claim C8 -/

/-- Claim C8: metadata for branch `b` lives at exactly the ref
`refs/branch-metadata/<b>`; the serialized JSON object uses the camelCase
keys `parentBranchName`, `parentBranchRevision` and (only when present)
`prInfo`; an absent `pr_info` is omitted from the JSON, and the nested
`prInfo` object uses camelCase keys `number`, `state`, `isDraft`. -/
theorem metadata_storage_shape (m : BranchMetadata) (p : PrInfo) (branch : String) :
    metadataRefName branch = "refs/branch-metadata/" ++ branch ∧
    m.toJson.keys = ["parentBranchName", "parentBranchRevision"] ++
      (match m.pr_info with | none => [] | some _ => ["prInfo"]) ∧
    m.toJson.getField "prInfo" = m.pr_info.map PrInfo.toJson ∧
    p.toJson.keys = ["number", "state"] ++
      (match p.is_draft with | none => [] | some _ => ["isDraft"]) := by
  obtain ⟨pn, pr, pi⟩ := m
  obtain ⟨n, s, d⟩ := p
  refine ⟨rfl, ?_, ?_, ?_⟩
  · cases pi <;> rfl
  · cases pi <;> rfl
  · cases d <;> rfl

/-! ### Claim C4 -/

/-- Counterexample to claim C4 as stated: for a concrete metadata write,
the `update-ref` invocation spawned by `refs::write_metadata` carries no
prior value — it is `git update-ref <ref> <hash>` with exactly two
arguments after the verb, so no compare-and-swap guard is supplied. -/
theorem writeMetadata_no_cas_cex :
    writeMetadataCmds "feature" "abc123" =
      [⟨["hash-object", "-w", "--stdin"]⟩,
       ⟨["update-ref", "refs/branch-metadata/feature", "abc123"]⟩] ∧
    ¬ suppliesPriorValue ⟨["update-ref", "refs/branch-metadata/feature", "abc123"]⟩ := by
  refine ⟨rfl, ?_⟩
  rintro ⟨r, newv, oldv, h⟩
  simp at h

/-- Claim C4 amended: every metadata-ref update invokes `git update-ref`
with only the ref name and the new blob hash; no prior value is supplied,
so there is no compare-and-swap guard against a concurrent writer. -/
theorem writeMetadata_no_cas (branch hash : String) :
    writeMetadataCmds branch hash =
      [⟨["hash-object", "-w", "--stdin"]⟩,
       ⟨["update-ref", metadataRefName branch, hash]⟩] ∧
    ∀ inv ∈ writeMetadataCmds branch hash, ¬ suppliesPriorValue inv := by
  refine ⟨rfl, ?_⟩
  intro inv hinv
  simp only [writeMetadataCmds, List.mem_cons, List.not_mem_nil, or_false] at hinv
  rcases hinv with h1 | h1 <;> subst h1 <;> rintro ⟨r, newv, oldv, h⟩ <;> simp at h

/-! ### Claim C7 -/

/-- Claim C7: the branches upstack restack plans are exactly the current
branch plus `descendants(current)` of the loaded Stack with trunk
removed, in that order — current first (when it is not trunk), then the
descendants in their traversal order with trunk dropped. -/
theorem upstackScope_spec (stack : Stack) (current : String) :
    (∀ b, b ∈ upstackScope stack current ↔
      (b = current ∨ b ∈ stack.descendants current) ∧ b ≠ stack.trunk) ∧
    (current ≠ stack.trunk →
      upstackScope stack current =
        current :: (stack.descendants current).filter (fun b => b != stack.trunk)) := by
  constructor
  · intro b
    simp [upstackScope, List.mem_filter, bne_iff_ne]
  · intro h
    have hb : (current != stack.trunk) = true := bne_iff_ne.mpr h
    simp [upstackScope, List.filter_cons, hb]

/-- Witness for C7 at a concrete stack. -/
theorem upstackScope_spec_witness :
    upstackScope stackC3 "A" =
      "A" :: (stackC3.descendants "A").filter (fun b => b != stackC3.trunk) :=
  (upstackScope_spec stackC3 "A").2 (by decide)

/-! ### Claim C6 -/

/-- Helper: the Success arm touches only the rebased branch's ref and
metadata. -/
theorem applySuccess_lookup_ne (st : GitState) (a : String) (m : BranchMetadata)
    (newTip : String) (st' : GitState) (c : String) (hca : c ≠ a)
    (h : applySuccess st a m newTip = .ok st') :
    st'.tips.lookup c = st.tips.lookup c ∧ st'.metas.lookup c = st.metas.lookup c := by
  simp only [applySuccess] at h
  split at h
  · cases h
  · injection h with h1
    subst h1
    constructor
    · simp [GitState.setMeta, GitState.setTip, lookup_updateAssoc_ne _ _ _ _ hca]
    · simp [GitState.setMeta, GitState.setTip, lookup_updateAssoc_ne _ _ _ _ hca]

/-- Claim C6: when a rebase in upstack restack reports Success, the
metadata written back for that branch keeps `parent_branch_name` and
`pr_info` unchanged and sets `parent_branch_revision` to the current tip
of the parent branch. -/
theorem applySuccess_frame (st : GitState) (b : String) (m : BranchMetadata)
    (newTip : String) (st2 : GitState)
    (h : applySuccess st b m newTip = .ok st2) :
    ∃ rev,
      st2.metas.lookup b = some ⟨m.parent_branch_name, rev, m.pr_info⟩ ∧
      st2.tips.lookup m.parent_branch_name = some rev := by
  simp only [applySuccess] at h
  cases hp : (st.setTip b newTip).tips.lookup m.parent_branch_name with
  | none => rw [hp] at h; cases h
  | some rev =>
    rw [hp] at h
    injection h with h1
    subst h1
    refine ⟨rev, ?_, ?_⟩
    · simpa [GitState.setMeta] using
        lookup_updateAssoc_self (st.setTip b newTip).metas b
          { m with parent_branch_revision := rev }
    · simpa [GitState.setMeta] using hp

/-- Witness for C6: a concrete successful rebase of `A` onto `main`. -/
theorem applySuccess_frame_witness :
    ∃ rev,
      (GitState.mk "w" [("main", "c1"), ("A", "c0a2")]
          [("A", ⟨"main", "c1", none⟩)]).metas.lookup "A" = some ⟨"main", rev, none⟩ ∧
      (GitState.mk "w" [("main", "c1"), ("A", "c0a2")]
          [("A", ⟨"main", "c1", none⟩)]).tips.lookup "main" = some rev :=
  applySuccess_frame ⟨"w", [("main", "c1"), ("A", "c0a")], [("A", ⟨"main", "c0", none⟩)]⟩
    "A" ⟨"main", "c0", none⟩ "c0a2" _ rfl

/-! ### Claim C3 -/

/-- Counterexample to claim C3 as stated: in a concrete repository where
the rebase of `A` reports Conflict, `upstack restack` seals the receipt
`in_progress` (phase `rebase`, branch `A`) but returns `Ok(())` — the
exit code is 0, not non-zero. -/
theorem upstackRestack_conflict_exit_cex :
    (upstackRestackRun conflictOracle "main" stC3).receipt
        = some (.in_progress (some "rebase") (some "A")) ∧
    (upstackRestackRun conflictOracle "main" stC3).exitCode = 0 :=
  ⟨rfl, rfl⟩

/-- Claim C3 amended: restack and upstack restack exit 0 on completion;
when a rebase reports Conflict they leave the transaction receipt sealed
`in_progress` (phase `rebase`, the conflicting branch) and still exit 0
(`run` returns `Ok(())`, which the caller relies on). -/
theorem upstackRestack_exit (oracle : RebaseOracle) (trunk : String) (st : GitState)
    (stack : Stack) (hload : Stack.load trunk st = .ok stack)
    (hne : (branchesNeedingRestack stack (upstackScope stack st.current)).isEmpty = false) :
    (∀ st2 rebased,
      restackLoop oracle trunk st [] (upstackScope stack st.current) = .completed st2 rebased →
      upstackRestackRun oracle trunk st = ⟨0, st2.checkout st.current, some .ok, rebased⟩) ∧
    (∀ b st2 rebased,
      restackLoop oracle trunk st [] (upstackScope stack st.current) = .suspended b st2 rebased →
      upstackRestackRun oracle trunk st =
        ⟨0, st2, some (.in_progress (some "rebase") (some b)), rebased⟩) := by
  constructor
  · intro st2 rebased hloop
    simp only [upstackRestackRun, hload, hne, Bool.false_eq_true, if_false, hloop]
  · intro b st2 rebased hloop
    simp only [upstackRestackRun, hload, hne, Bool.false_eq_true, if_false, hloop]

/-- Witness for C3 (amended): the conflict case at the concrete state. -/
theorem upstackRestack_exit_witness :
    upstackRestackRun conflictOracle "main" stC3 =
      ⟨0, stC3, some (.in_progress (some "rebase") (some "A")), ["A"]⟩ :=
  (upstackRestack_exit conflictOracle "main" stC3 stackC3 rfl rfl).2 "A" stC3 ["A"] rfl

/-! ### Claim C5 -/

/-- Helper: when the rebase loop suspends at branch `b`, that branch was
part of the plan it walked. -/
theorem restackLoop_suspended_mem (oracle : RebaseOracle) (trunk : String) :
    ∀ (plan : List String) (st : GitState) (rebased rebased2 : List String)
      (b : String) (st2 : GitState),
      restackLoop oracle trunk st rebased plan = .suspended b st2 rebased2 → b ∈ plan := by
  intro plan
  induction plan with
  | nil =>
    intro st rebased rebased2 b st2 h
    simp [restackLoop] at h
  | cons a rest ih =>
    intro st rebased rebased2 b st2 h
    simp only [restackLoop] at h
    repeat' split at h
    all_goals
      first
        | exact List.mem_cons_of_mem _ (ih _ _ _ _ _ h)
        | (cases h; exact List.mem_cons_self _ _)
        | simp_all

/-- Claim C5: when the rebase of a planned branch reports Conflict,
upstack restack stops at once: every branch strictly later in the plan
has no rebase invoked for it and keeps both its branch ref and its
metadata exactly as they were when the loop started. -/
theorem restackLoop_conflict_frame (oracle : RebaseOracle) (trunk : String) :
    ∀ (pre post : List String) (b c : String) (st st2 : GitState)
      (rebased rebased2 : List String),
      (pre ++ b :: post).Nodup →
      restackLoop oracle trunk st rebased (pre ++ b :: post) = .suspended b st2 rebased2 →
      c ∈ post →
      st2.tips.lookup c = st.tips.lookup c ∧
      st2.metas.lookup c = st.metas.lookup c ∧
      (c ∉ rebased → c ∉ rebased2) := by
  intro pre
  induction pre with
  | nil =>
    intro post b c st st2 rebased rebased2 hnd h hc
    simp only [List.nil_append] at hnd h
    have hbpost : b ∉ post := (List.nodup_cons.mp hnd).1
    have hcb : c ≠ b := fun he => hbpost (he ▸ hc)
    simp only [restackLoop] at h
    split at h
    · exact absurd h (by simp)
    · split at h
      · exact absurd (restackLoop_suspended_mem oracle trunk post _ _ _ _ _ h) hbpost
      · split at h
        · exact absurd (restackLoop_suspended_mem oracle trunk post _ _ _ _ _ h) hbpost
        · split at h
          · exact absurd (restackLoop_suspended_mem oracle trunk post _ _ _ _ _ h) hbpost
          · split at h
            · split at h
              · exact absurd h (by simp)
              · exact absurd (restackLoop_suspended_mem oracle trunk post _ _ _ _ _ h) hbpost
            · cases h
              refine ⟨rfl, rfl, fun hcr hmem => ?_⟩
              rcases List.mem_append.mp hmem with hx | hx
              · exact hcr hx
              · exact hcb (List.mem_singleton.mp hx)
  | cons a pre ih =>
    intro post b c st st2 rebased rebased2 hnd h hc
    rw [List.cons_append] at hnd h
    have hnd' : (pre ++ b :: post).Nodup := (List.nodup_cons.mp hnd).2
    have hamem : a ∉ pre ++ b :: post := (List.nodup_cons.mp hnd).1
    have hca : c ≠ a := by
      intro he
      exact hamem (he ▸ List.mem_append_right _ (List.mem_cons_of_mem _ hc))
    have hab : a ≠ b := by
      intro he
      exact hamem (he ▸ List.mem_append_right _ (List.mem_cons_self _ _))
    simp only [restackLoop] at h
    split at h
    · exact absurd h (by simp)
    · split at h
      · exact ih post b c _ _ _ _ hnd' h hc
      · split at h
        · exact ih post b c _ _ _ _ hnd' h hc
        · split at h
          · exact ih post b c _ _ _ _ hnd' h hc
          · split at h
            · split at h
              · exact absurd h (by simp)
              · rename_i st' happ
                obtain ⟨ht, hm⟩ := applySuccess_lookup_ne st a _ _ st' c hca happ
                obtain ⟨ht2, hm2, hr2⟩ :=
                  ih post b c st' st2 (rebased ++ [a]) rebased2 hnd' h hc
                refine ⟨ht2.trans ht, hm2.trans hm, fun hcr => hr2 ?_⟩
                intro hmem
                rcases List.mem_append.mp hmem with hx | hx
                · exact hcr hx
                · exact hca (List.mem_singleton.mp hx)
            · cases h
              exact absurd rfl hab

/-- Witness for C5: with `B` planned after the conflicting `A`, the
loop leaves `B`'s ref and metadata untouched and never rebases it. -/
theorem restackLoop_conflict_frame_witness :
    stC5.tips.lookup "B" = stC5.tips.lookup "B" ∧
    stC5.metas.lookup "B" = stC5.metas.lookup "B" ∧
    ("B" ∉ ([] : List String) → "B" ∉ (["A"] : List String)) :=
  restackLoop_conflict_frame conflictOracle "main" [] ["B"] "A" "B" stC5 stC5 [] ["A"]
    (by decide) rfl (by decide)

/-! ### Claim C10 -/

/-- Claim C10: `branch delete` refuses to delete the trunk branch or the
currently checked-out branch: for such a target it returns an error with
every branch ref and metadata ref untouched (the result carries the
input state unchanged). -/
theorem branchDelete_refuses (st : GitState) (trunk target : String)
    (force confirm : Bool) (h : target = trunk ∨ target = st.current) :
    ∃ msg, branchDeleteRun st trunk target force confirm = .err msg st := by
  rcases h with h | h
  · exact ⟨"cannot delete trunk branch", by simp [branchDeleteRun, h]⟩
  · by_cases ht : target = trunk
    · exact ⟨"cannot delete trunk branch", by simp [branchDeleteRun, ht]⟩
    · refine ⟨"cannot delete current branch", ?_⟩
      have hb : (target == trunk) = false := beq_eq_false_iff_ne.mpr ht
      have hb2 : (target == st.current) = true := by simp [h]
      simp [branchDeleteRun, hb, hb2]

/-! ### Claim C9 -/

/-- Claim C9: reading a branch's metadata returns `None` when no
`refs/branch-metadata/<branch>` ref exists; `Some(metadata)` when the
ref exists and its blob decodes and parses as metadata JSON; and an
error for any other failure — a blob that is not valid UTF-8, that is
not parseable JSON, or whose JSON has the wrong shape. -/
theorem readMetadata_cases (store : RefStore) (branch : String) :
    (store.lookup (metadataRefName branch) = none →
      readMetadataFull store branch = .ok none) ∧
    (∀ bytes s j m,
      store.lookup (metadataRefName branch) = some bytes →
      utf8Decode bytes = some s → jsonParse s = some j →
      BranchMetadata.fromJson j = some m →
      readMetadataFull store branch = .ok (some m)) ∧
    (∀ bytes,
      store.lookup (metadataRefName branch) = some bytes →
      utf8Decode bytes = none →
      ∃ e, readMetadataFull store branch = .error e) ∧
    (∀ bytes s,
      store.lookup (metadataRefName branch) = some bytes →
      utf8Decode bytes = some s → jsonParse s = none →
      ∃ e, readMetadataFull store branch = .error e) ∧
    (∀ bytes s j,
      store.lookup (metadataRefName branch) = some bytes →
      utf8Decode bytes = some s → jsonParse s = some j →
      BranchMetadata.fromJson j = none →
      ∃ e, readMetadataFull store branch = .error e) := by
  refine ⟨?_, ?_, ?_, ?_, ?_⟩
  · intro h
    simp [readMetadataFull, read_metadata, h]
  · intro bytes s j m h1 h2 h3 h4
    simp [readMetadataFull, read_metadata, h1, h2, h3, h4]
  · intro bytes h1 h2
    refine ⟨"invalid utf-8 in metadata blob", ?_⟩
    simp [readMetadataFull, read_metadata, h1, h2]
  · intro bytes s h1 h2 h3
    refine ⟨"invalid JSON in metadata blob", ?_⟩
    simp [readMetadataFull, read_metadata, h1, h2, h3]
  · intro bytes s j h1 h2 h3 h4
    refine ⟨"metadata JSON does not deserialize", ?_⟩
    simp [readMetadataFull, read_metadata, h1, h2, h3, h4]

/-- Witness for C9: a concrete store with a well-formed blob reads back
as `Some` of the decoded metadata. -/
theorem readMetadata_cases_witness :
    readMetadataFull storeC9 "A" = .ok (some ⟨"main", "abc", none⟩) :=
  (readMetadata_cases storeC9 "A").2.1 blobC9 jsonTextC9
    (.obj [("parentBranchName", .str "main"), ("parentBranchRevision", .str "abc")])
    ⟨"main", "abc", none⟩ rfl rfl rfl rfl

/-- Witness for C10: deleting trunk itself is refused. -/
theorem branchDelete_refuses_witness :
    ∃ msg,
      branchDeleteRun ⟨"A", [("main", "c1"), ("A", "c0a")], []⟩ "main" "main" false false =
        .err msg ⟨"A", [("main", "c1"), ("A", "c0a")], []⟩ :=
  branchDelete_refuses ⟨"A", [("main", "c1"), ("A", "c0a")], []⟩ "main" "main" false false
    (Or.inl rfl)

end Stax
